import Mathlib

/-!
Verification of the event-sourced chess state reconciliation engine
(chesstr): a shallow embedding of the challenge handshake, the color
assignment resolver, the game-state projector, the move submission
pipeline, the clock model and the time-control header codec, together
with theorems settling the specification's claims about them.

Conventions of the embedding:
* JavaScript strings are Lean `String`s; the identities occurring in the
  program (hex public keys) are ASCII, so JS UTF-16 code units coincide
  with Lean character code points on all relevant inputs.
* JS falsiness of strings (`""` is falsy) is modelled explicitly by the
  `jsOrVal` / `optTruthy` helpers.
* `JSON.parse` of a challenge event's content is modelled at the
  interface boundary: an event content is either plain text (a string
  that does not parse as a challenge object) or a parsed challenge
  object; the encoder `encodeChallengeContent` witnesses the JSON shape
  the program writes.
* The rules engine (chess.js) is the spec's opaque legality oracle; its
  outputs at a call site (move result, checkmate/draw flags, movetext)
  are passed as explicit inputs to the embedded functions.
* Numbers that the program only ever uses as non-negative integers
  (seconds of a time control) are `Nat`; unix timestamps are `Int`;
  clock times (fractional seconds) are `ℚ`.
-/

/-! ## Basic data model (src/lib/chess.ts, src/lib/gameTypes.ts) -/

/-- Time control: initial seconds and increment seconds
(`TimeControl` in src/lib/chess.ts). -/
structure TimeControl where
  initial : Nat
  increment : Nat
deriving DecidableEq, Repr

/-- The JSON object stored in a challenge event's content:
`\x7btimeControl, challengerColor, originalChallenger?\x7d`.  Absent
(`undefined`) fields are `none`. -/
structure ChallengeContent where
  timeControl : Option TimeControl
  challengerColor : Option String
  originalChallenger : Option String
deriving DecidableEq, Repr

/-! ## JS string helpers -/

/-- JS `a || b` for a possibly-undefined string `a` and a string
default `b`: the empty string is falsy. -/
def jsOrVal (a : Option String) (b : String) : String :=
  match a with
  | some s => if s = "" then b else s
  | none => b

/-- JS `a || b` where both operands are possibly-undefined strings. -/
def jsOr (a b : Option String) : Option String :=
  match a with
  | some s => if s = "" then b else some s
  | none => b

/-- Truthiness filter for a possibly-undefined string: `none` for
`undefined` and for the (falsy) empty string. -/
def optTruthy (o : Option String) : Option String :=
  match o with
  | some s => if s = "" then none else some s
  | none => none

/-- Sum of the character codes of a string
(`hash.split('').reduce((acc, c) => acc + c.charCodeAt(0), 0)` in
src/hooks/useNostrChessGame.ts). -/
def sumCharCodes (s : String) : Nat :=
  s.data.foldl (fun acc c => acc + c.toNat) 0

/-! ## Decimal rendering and parsing

The program converts numbers to strings with JS template interpolation
and back with `parseInt` guarded by the regex `\d+`; both directions are
plain base-10 codecs, embedded here over `List Char`. -/

/-- The decimal digit character for `n < 10`. -/
def digitChar : Nat → Char
  | 0 => '0'
  | 1 => '1'
  | 2 => '2'
  | 3 => '3'
  | 4 => '4'
  | 5 => '5'
  | 6 => '6'
  | 7 => '7'
  | 8 => '8'
  | _ => '9'

/-- Decimal digits of a natural number, most significant first; models
JS number-to-string conversion for non-negative integers. -/
def natDigits (n : Nat) : List Char :=
  if _h : n < 10 then [digitChar n]
  else natDigits (n / 10) ++ [digitChar (n % 10)]
termination_by n
decreasing_by
  exact Nat.div_lt_self (by omega) (by omega)

/-- JS number-to-string for a natural number (`` `${n}` ``). -/
def toDecimal (n : Nat) : String := String.mk (natDigits n)

/-- Numeric value of a digit character. -/
def digitVal (c : Char) : Nat := c.toNat - 48

/-- JS `parseInt` on a string of decimal digits. -/
def parseDigits (cs : List Char) : Nat :=
  cs.foldl (fun acc c => acc * 10 + digitVal c) 0

theorem digitVal_digitChar {n : Nat} (h : n < 10) : digitVal (digitChar n) = n := by
  interval_cases n <;> rfl

theorem isDigit_digitChar {n : Nat} (h : n < 10) : (digitChar n).isDigit = true := by
  interval_cases n <;> rfl

theorem natDigits_ne_nil (n : Nat) : natDigits n ≠ [] := by
  rw [natDigits]
  split <;> simp

theorem natDigits_all_digits (n : Nat) : ∀ c ∈ natDigits n, c.isDigit = true := by
  induction n using Nat.strong_induction_on with
  | _ n ih =>
    rw [natDigits]
    split
    · next h => intro c hc; simp at hc; subst hc; exact isDigit_digitChar h
    · next h =>
      intro c hc
      simp only [List.mem_append, List.mem_singleton] at hc
      rcases hc with hc | hc
      · exact ih (n / 10) (Nat.div_lt_self (by omega) (by omega)) c hc
      · subst hc; exact isDigit_digitChar (Nat.mod_lt _ (by omega))

theorem parseDigits_append_digit (cs : List Char) (c : Char) :
    parseDigits (cs ++ [c]) = parseDigits cs * 10 + digitVal c := by
  simp [parseDigits, List.foldl_append]

/-- Parsing the decimal rendering recovers the number. -/
theorem parseDigits_natDigits (n : Nat) : parseDigits (natDigits n) = n := by
  induction n using Nat.strong_induction_on with
  | _ n ih =>
    rw [natDigits]
    split
    · next h => simp [parseDigits, digitVal_digitChar h]
    · next h =>
      rw [parseDigits_append_digit, ih (n / 10) (Nat.div_lt_self (by omega) (by omega)),
        digitVal_digitChar (Nat.mod_lt _ (by omega))]
      omega

/-! ## Time-control header codec (src/lib/gameTypes.ts) -/

/-- Shared pattern of `parseTimeControlHeader` and of the inline
time-control regex in `parseGameEvent`: the anchored alternatives
`(\d+)\+(\d+)` / `(\d+)` over the whole input.  Returns the two digit
groups (the second empty for the no-increment form). -/
def splitTCDigits (cs : List Char) : Option (List Char × List Char) :=
  let ds := cs.takeWhile Char.isDigit
  let rest := cs.dropWhile Char.isDigit
  if ds.isEmpty then none
  else
    match rest with
    | [] => some (ds, [])
    | '+' :: rest2 =>
      if rest2.isEmpty then none
      else if rest2.all Char.isDigit then some (ds, rest2) else none
    | _ => none

/-- The regex match of `^(\d+)(?:\+(\d+))?$` as a `TimeControl`
(shared by `parseGameEvent` and `parseTimeControlHeader`). -/
def parseTCPattern (s : String) : Option TimeControl :=
  match splitTCDigits s.data with
  | some (ds, []) => some ⟨parseDigits ds, 0⟩
  | some (ds, ds2) => some ⟨parseDigits ds, parseDigits ds2⟩
  | none => none

/-- `parseTimeControlHeader` (src/lib/gameTypes.ts, lines 214-236):
rejects the falsy/`?`/`-` sentinels, then tries `(\d+)\+(\d+)` and
`(\d+)`. -/
def parseTimeControlHeader (s : String) : Option TimeControl :=
  if s = "" ∨ s = "?" ∨ s = "-" then none
  else parseTCPattern s

/-- `formatTimeControlHeader` (src/lib/gameTypes.ts, lines 239-245). -/
def formatTimeControlHeader (tc : TimeControl) : String :=
  if tc.initial = 0 then "-"
  else if tc.increment > 0 then
    toDecimal tc.initial ++ "+" ++ toDecimal tc.increment
  else toDecimal tc.initial

theorem takeWhile_append_not {p : Char → Bool} (d1 : List Char) (x : Char) (r : List Char)
    (hd : ∀ c ∈ d1, p c = true) (hx : p x = false) :
    (d1 ++ x :: r).takeWhile p = d1 ∧ (d1 ++ x :: r).dropWhile p = x :: r := by
  induction d1 with
  | nil => simp [List.takeWhile, List.dropWhile, hx]
  | cons a as iha =>
    have ha : p a = true := hd a (by simp)
    have ih := iha (fun c hc => hd c (by simp [hc]))
    simp [List.takeWhile, List.dropWhile, ha, ih.1, ih.2]

theorem takeWhile_all {p : Char → Bool} (d1 : List Char)
    (hd : ∀ c ∈ d1, p c = true) :
    d1.takeWhile p = d1 ∧ d1.dropWhile p = [] := by
  induction d1 with
  | nil => simp
  | cons a as iht =>
    have ha : p a = true := hd a (by simp)
    have ih := iht (fun c hc => hd c (by simp [hc]))
    simp [List.takeWhile, List.dropWhile, ha, ih.1, ih.2]

theorem string_mk_ne (l : List Char) (m : List Char) (h : l ≠ m) :
    String.mk l ≠ String.mk m := by
  intro he
  exact h (by injection he)

theorem string_append_data (a b : String) : (a ++ b).data = a.data ++ b.data := rfl

theorem data_ne_imp_ne {s t : String} (h : s.data ≠ t.data) : s ≠ t :=
  fun he => h (congrArg String.data he)

theorem format_data_inc (i inc : Nat) (hinc : 0 < inc) (hi : i ≠ 0) :
    (formatTimeControlHeader ⟨i, inc⟩).data = natDigits i ++ '+' :: natDigits inc := by
  simp only [formatTimeControlHeader, hi, if_false, hinc, if_true]
  simp [toDecimal, string_append_data]

theorem format_data_noinc (i : Nat) (hi : i ≠ 0) :
    (formatTimeControlHeader ⟨i, 0⟩).data = natDigits i := by
  simp [formatTimeControlHeader, hi, toDecimal]

theorem not_sentinel_of_digits_head {s : String} (n : Nat) (r : List Char)
    (hd : s.data = natDigits n ++ r) :
    ¬(s = "" ∨ s = "?" ∨ s = "-") := by
  obtain ⟨c, cs, hc⟩ := List.exists_cons_of_ne_nil (natDigits_ne_nil n)
  have hdig : c.isDigit = true := natDigits_all_digits n c (by rw [hc]; simp)
  rw [hc] at hd
  intro hcase
  rcases hcase with hcase | hcase | hcase
  · subst hcase; simp at hd
  · subst hcase; simp at hd
    rw [← hd.1] at hdig; exact absurd hdig (by decide)
  · subst hcase; simp at hd
    rw [← hd.1] at hdig; exact absurd hdig (by decide)

/-- Claim C10: for every time control with integer `initial > 0` and
`increment ≥ 0`, `parseTimeControlHeader (formatTimeControlHeader tc) = tc`;
for `initial = 0` (the untimed sentinel) the formatter yields `"-"`,
which the parser maps to `none` rather than to any time control. -/
theorem time_control_header_round_trip (tc : TimeControl) :
    (0 < tc.initial →
      parseTimeControlHeader (formatTimeControlHeader tc) = some tc) ∧
    (tc.initial = 0 → formatTimeControlHeader tc = "-") ∧
    parseTimeControlHeader "-" = none := by
  obtain ⟨i, inc⟩ := tc
  refine ⟨?_, ?_, by decide⟩
  · intro hpos
    have hi : i ≠ 0 := Nat.pos_iff_ne_zero.mp hpos
    by_cases hinc : 0 < inc
    · have hdata := format_data_inc i inc hinc hi
      rw [parseTimeControlHeader, if_neg (not_sentinel_of_digits_head i
        ('+' :: natDigits inc) hdata)]
      rw [parseTCPattern, hdata]
      have hsplit := takeWhile_append_not (p := Char.isDigit) (natDigits i) '+'
        (natDigits inc) (natDigits_all_digits i) (by decide)
      obtain ⟨c, cs, hc⟩ := List.exists_cons_of_ne_nil (natDigits_ne_nil inc)
      rw [splitTCDigits]
      simp only [hsplit.1, hsplit.2]
      rw [if_neg (by simp [List.isEmpty_iff, natDigits_ne_nil])]
      rw [if_neg (by rw [hc]; simp [List.isEmpty_iff])]
      rw [if_pos (by
        rw [List.all_eq_true]
        exact fun c hc => natDigits_all_digits inc c hc)]
      rw [hc]
      simp only []
      rw [← hc]
      rw [parseDigits_natDigits, parseDigits_natDigits]
    · have hz : inc = 0 := by omega
      subst hz
      have hdata := format_data_noinc i hi
      rw [parseTimeControlHeader, if_neg (not_sentinel_of_digits_head i []
        (by rw [hdata, List.append_nil]))]
      rw [parseTCPattern, hdata]
      have hsplit := takeWhile_all (p := Char.isDigit) (natDigits i)
        (natDigits_all_digits i)
      rw [splitTCDigits]
      simp only [hsplit.1, hsplit.2]
      rw [if_neg (by simp [List.isEmpty_iff, natDigits_ne_nil])]
      simp [parseDigits_natDigits]
  · intro h0
    have hz : i = 0 := h0
    subst hz
    simp [formatTimeControlHeader]

/-- Witness for claim C10 at the concrete time controls 300+5 and 0+0. -/
theorem time_control_header_round_trip_witness :
    parseTimeControlHeader (formatTimeControlHeader ⟨300, 5⟩) = some ⟨300, 5⟩ ∧
    formatTimeControlHeader ⟨0, 0⟩ = "-" :=
  ⟨(time_control_header_round_trip ⟨300, 5⟩).1 (by decide),
   (time_control_header_round_trip ⟨0, 0⟩).2.1 rfl⟩

/-! ## PGN header scanning (src/lib/chess.ts, `parsePGNHeaders`)

The source repeatedly applies the regex `\[(\w+)\s+"([^"]*)"\]` to the
notation text and stores each captured pair in an object keyed by the
lowercased tag name (later matches overwrite earlier ones).  The regex
is embedded as a deterministic scanner: `\w`, `\s` and `[^"]` are
disjoint enough that greedy matching never backtracks. -/

/-- JS `\w`: ASCII letters, digits and underscore. -/
def isWordChar (c : Char) : Bool := c.isAlphanum || c = '_'

/-- JS `\s` on the inputs the program produces (ASCII whitespace). -/
def isSpaceChar (c : Char) : Bool := c = ' ' || c = '\t' || c = '\n' || c = '\r'

/-- Try to match `\[(\w+)\s+"([^"]*)"\]` at the start of `cs`; on
success return the two captures and the remaining characters. -/
def matchHeaderAt (cs : List Char) : Option (String × String × List Char) :=
  match cs with
  | '[' :: r1 =>
    let key := r1.takeWhile isWordChar
    let r2 := r1.dropWhile isWordChar
    if key.isEmpty then none
    else
      let sp := r2.takeWhile isSpaceChar
      let r3 := r2.dropWhile isSpaceChar
      if sp.isEmpty then none
      else
        match r3 with
        | '"' :: r4 =>
          let v := r4.takeWhile (fun c => c ≠ '"')
          match r4.dropWhile (fun c => c ≠ '"') with
          | '"' :: ']' :: r6 => some (String.mk key, String.mk v, r6)
          | _ => none
        | _ => none
  | _ => none

/-- JS `toLowerCase` on the (ASCII) header keys. -/
def lowerStr (s : String) : String := String.mk (s.data.map Char.toLower)

/-- Left-to-right scan of the global regex: on a match, emit the pair
(key lowercased) and continue after it; otherwise skip one character.
Each step consumes at least one character, so the input length bounds
the number of steps (the fuel). -/
def scanHeadersAux : Nat → List Char → List (String × String)
  | 0, _ => []
  | _, [] => []
  | fuel + 1, c :: rest =>
    match matchHeaderAt (c :: rest) with
    | some (k, v, r) => (lowerStr k, v) :: scanHeadersAux fuel r
    | none => scanHeadersAux fuel rest

/-- `parsePGNHeaders` (src/lib/chess.ts, lines 65-76) as an association
list in match order. -/
def parsePGNHeaders (s : String) : List (String × String) :=
  scanHeadersAux s.data.length s.data

/-- JS object lookup for the header map: the last assignment to a key
wins. -/
def jsObjGet (hs : List (String × String)) (k : String) : Option String :=
  (hs.reverse.find? (fun p => p.1 == k)).map (fun p => p.2)

/-! ## Nostr events and the game parser (src/hooks/useNostrChessGame.ts) -/

/-- An event's content, as seen through `JSON.parse`: `text` is a string
that does not parse as a challenge object (game snapshots store the
notation text here), `json` is a string that parses to the given
challenge object. -/
inductive EventContent where
  | text (s : String)
  | json (c : ChallengeContent)
deriving DecidableEq, Repr

/-- The JSON serialization the program writes for a challenge content
(`JSON.stringify` with fields in declaration order, `undefined` fields
omitted); it witnesses the string form of a `json` content. -/
def encodeChallengeContent (c : ChallengeContent) : String :=
  let tcPart := match c.timeControl with
    | some tc => "\"timeControl\":\x7b\"initial\":" ++ toDecimal tc.initial ++
        ",\"increment\":" ++ toDecimal tc.increment ++ "\x7d"
    | none => ""
  let colPart := match c.challengerColor with
    | some col => ",\"challengerColor\":\"" ++ col ++ "\""
    | none => ""
  let origPart := match c.originalChallenger with
    | some oc => ",\"originalChallenger\":\"" ++ oc ++ "\""
    | none => ""
  "\x7b" ++ tcPart ++ colPart ++ origPart ++ "\x7d"

/-- The string value of a content (what the program reads as
`event.content`). -/
def contentStr : EventContent → String
  | .text s => s
  | .json c => encodeChallengeContent c

/-- The result of `JSON.parse(event.content)` inside a try/catch:
`none` models the parse throwing. -/
def parseContent : EventContent → Option ChallengeContent
  | .text _ => none
  | .json c => some c

/-- A signed Nostr event, restricted to the fields the program reads. -/
structure NEvent where
  id : String
  pubkey : String
  kind : Nat
  created_at : Int
  content : EventContent
  tags : List (List String)
deriving DecidableEq, Repr

/-- `event.tags.find(t => t[0] === k)?.[1]`. -/
def tagValue (e : NEvent) (k : String) : Option String :=
  (e.tags.find? (fun t => t.head? == some k)).bind (fun t => t.get? 1)

/-- The canonical game state the projector produces (`ActiveGame` in
src/hooks/useNostrChessGame.ts).  `result` is kept as the raw header
string; `"*"` is the in-progress value. -/
structure ActiveGame where
  id : String
  eventId : String
  white : String
  black : String
  pgn : String
  timeControl : TimeControl
  result : String
  createdAt : Int
  updatedAt : Int
deriving DecidableEq, Repr

/-- `parseGameEvent` (src/hooks/useNostrChessGame.ts, lines 22-59):
decode a kind-64 move-snapshot event into an `ActiveGame`.  The `d` tag
is required (falsy values rejected); white and black come from the
dedicated tags, falling back to the embedded notation headers and then
to the empty string; the time control comes from the `TimeControl`
header when it matches `(\d+)(\+(\d+))?`, else defaults to 300+0. -/
def parseGameEvent (e : NEvent) : Option ActiveGame :=
  match optTruthy (tagValue e "d") with
  | none => none
  | some dTag =>
    let pgn := contentStr e.content
    let headers := parsePGNHeaders pgn
    let timeControl := match optTruthy (jsObjGet headers "timecontrol") with
      | some tcs => match parseTCPattern tcs with
        | some tc => tc
        | none => ⟨300, 0⟩
      | none => ⟨300, 0⟩
    some {
      id := dTag
      eventId := e.id
      white := jsOrVal (tagValue e "white") (jsOrVal (jsObjGet headers "white") "")
      black := jsOrVal (tagValue e "black") (jsOrVal (jsObjGet headers "black") "")
      pgn := pgn
      timeControl := timeControl
      result := jsOrVal (jsObjGet headers "result") "*"
      createdAt := e.created_at
      updatedAt := e.created_at }

/-! ## The game state projector (src/hooks/useNostrChessGame.ts,
`useChessGameData`, lines 110-198) -/

/-- Stable descending insertion by `created_at`: an element is placed
after every element with a strictly greater timestamp and before
equal-timestamp elements that arrive later.  Together with the `foldr`
in `sortByCreatedDesc` this is exactly the (stable, per ES2019) JS
`sort((a, b) => b.created_at - a.created_at)`. -/
def insertByCreatedDesc (e : NEvent) : List NEvent → List NEvent
  | [] => [e]
  | x :: xs =>
    if x.created_at > e.created_at then x :: insertByCreatedDesc e xs
    else e :: x :: xs

/-- Stable sort of events by descending `created_at`. -/
def sortByCreatedDesc (l : List NEvent) : List NEvent :=
  l.foldr insertByCreatedDesc []

/-- `CHESS_GAME_KIND` (src/lib/gameTypes.ts). -/
def CHESS_GAME_KIND : Nat := 64

/-- `CHESS_CHALLENGE_KIND` (src/lib/gameTypes.ts). -/
def CHESS_CHALLENGE_KIND : Nat := 30064

/-- The predicate of the accepted-challenge lookup:
`e.kind === CHESS_CHALLENGE_KIND && e.tags.some(t => t[0] === 'status'
&& t[1] === 'accepted')`. -/
def isAcceptedChallenge (e : NEvent) : Bool :=
  e.kind == CHESS_CHALLENGE_KIND &&
    e.tags.any (fun t => t.head? == some "status" && t.get? 1 == some "accepted")

/-- The color-assignment block of the accepted-challenge branch
(src/hooks/useNostrChessGame.ts, lines 154-175), as a function of the
embedded original challenger, the `p`-tag fallback, the acceptor's
pubkey and the challenger color preference.  Returns the
(possibly-undefined) white and black players, in that order. -/
def assignColors (origChallenger : Option String) (pTag : Option String)
    (pubkey : String) (challengerColor : Option String) :
    Option String × Option String :=
  let challengerSlot := jsOr origChallenger pTag
  if challengerColor = some "w" then (challengerSlot, some pubkey)
  else if challengerColor = some "b" then (some pubkey, challengerSlot)
  else
    let hash := jsOrVal origChallenger "" ++ pubkey
    if sumCharCodes hash % 2 = 1 then (challengerSlot, some pubkey)
    else (some pubkey, challengerSlot)

/-- The accepted-challenge branch of the projector
(src/hooks/useNostrChessGame.ts, lines 148-191): decode the content,
recover the time control (defaulting to 300+0), recompute the color
assignment and produce an empty-history in-progress state; a content
that fails to parse yields `none`. -/
def decodeAcceptedChallenge (gameId : String) (e : NEvent) : Option ActiveGame :=
  match parseContent e.content with
  | none => none
  | some c =>
    let timeControl := match c.timeControl with
      | some tc => tc
      | none => ⟨300, 0⟩
    let colors := assignColors c.originalChallenger (tagValue e "p") e.pubkey
      c.challengerColor
    some {
      id := gameId
      eventId := e.id
      white := jsOrVal colors.1 ""
      black := jsOrVal colors.2 ""
      pgn := "*"
      timeControl := timeControl
      result := "*"
      createdAt := e.created_at
      updatedAt := e.created_at }

/-- The game state projector (`useChessGameData`'s query function on the
events returned for one game identifier): take the newest kind-64
snapshot if any exists, else the first challenge event carrying an
`accepted` status tag, else report not-found. -/
def projectGame (gameId : String) (events : List NEvent) : Option ActiveGame :=
  let gameEvents := sortByCreatedDesc
    (events.filter (fun e => e.kind == CHESS_GAME_KIND))
  match gameEvents.head? with
  | some e => parseGameEvent e
  | none =>
    match events.find? isAcceptedChallenge with
    | some ch => decodeAcceptedChallenge gameId ch
    | none => none

/-! ## Selection lemmas for the projector

`sortByCreatedDesc` followed by taking the head selects the earliest
event (in arrival order) among those with the maximal `created_at`;
`firstMax` computes that selection directly. -/

/-- The earliest element of maximal `created_at` (ties keep the earlier
element), i.e. the head of the stable descending sort. -/
def firstMax : List NEvent → Option NEvent
  | [] => none
  | e :: es =>
    match firstMax es with
    | none => some e
    | some m => if m.created_at > e.created_at then some m else some e

theorem firstMax_cons_none {e : NEvent} {es : List NEvent}
    (h : firstMax es = none) : firstMax (e :: es) = some e := by
  rw [firstMax, h]

theorem firstMax_cons_some {e m : NEvent} {es : List NEvent}
    (h : firstMax es = some m) :
    firstMax (e :: es) =
      if m.created_at > e.created_at then some m else some e := by
  rw [firstMax, h]

theorem head?_insertByCreatedDesc (e : NEvent) (s : List NEvent) :
    (insertByCreatedDesc e s).head? =
      match s.head? with
      | none => some e
      | some x => if x.created_at > e.created_at then some x else some e := by
  cases s with
  | nil => rfl
  | cons x xs =>
    by_cases h : x.created_at > e.created_at <;> simp [insertByCreatedDesc, h]

theorem head?_sortByCreatedDesc (l : List NEvent) :
    (sortByCreatedDesc l).head? = firstMax l := by
  induction l with
  | nil => rfl
  | cons e es ih =>
    have hstep : sortByCreatedDesc (e :: es) =
        insertByCreatedDesc e (sortByCreatedDesc es) := rfl
    rw [hstep, head?_insertByCreatedDesc, ih]
    cases hfm : firstMax es <;> simp [firstMax, hfm]

theorem firstMax_eq_none {l : List NEvent} : firstMax l = none ↔ l = [] := by
  cases l with
  | nil => simp [firstMax]
  | cons e es =>
    simp only [firstMax]
    cases firstMax es with
    | none => simp
    | some m => by_cases h : m.created_at > e.created_at <;> simp [h]

theorem firstMax_mem : ∀ {l : List NEvent} {m}, firstMax l = some m → m ∈ l := by
  intro l
  induction l with
  | nil => intro m h; simp [firstMax] at h
  | cons e es ih =>
    intro m h
    cases hfm : firstMax es with
    | none =>
      rw [firstMax_cons_none hfm] at h
      simp at h; subst h; simp
    | some m' =>
      rw [firstMax_cons_some hfm] at h
      by_cases hgt : m'.created_at > e.created_at
      · rw [if_pos hgt] at h; simp at h; subst h
        exact List.mem_cons_of_mem _ (ih hfm)
      · rw [if_neg hgt] at h; simp at h; subst h; simp

theorem firstMax_le : ∀ {l : List NEvent} {m}, firstMax l = some m →
    ∀ x ∈ l, x.created_at ≤ m.created_at := by
  intro l
  induction l with
  | nil => intro m h; simp [firstMax] at h
  | cons e es ih =>
    intro m h x hx
    cases hfm : firstMax es with
    | none =>
      have hes : es = [] := firstMax_eq_none.mp hfm
      rw [firstMax_cons_none hfm] at h
      simp at h
      subst h
      subst hes
      simp at hx
      subst hx
      exact le_refl _
    | some m' =>
      rw [firstMax_cons_some hfm] at h
      rcases List.mem_cons.mp hx with hx | hx
      · subst hx
        by_cases hgt : m'.created_at > x.created_at
        · rw [if_pos hgt] at h; simp at h; subst h; exact le_of_lt hgt
        · rw [if_neg hgt] at h; simp at h; subst h; exact le_refl _
      · have hle := ih hfm x hx
        by_cases hgt : m'.created_at > e.created_at
        · rw [if_pos hgt] at h; simp at h; subst h; exact hle
        · rw [if_neg hgt] at h; simp at h; subst h
          exact le_trans hle (not_lt.mp hgt)

theorem firstMax_append_strict (l1 l2 : List NEvent) (e : NEvent)
    (hbefore : ∀ x ∈ l1, x.created_at < e.created_at)
    (hafter : ∀ x ∈ l2, x.created_at ≤ e.created_at) :
    firstMax (l1 ++ e :: l2) = some e := by
  induction l1 with
  | nil =>
    simp only [List.nil_append]
    cases hfm : firstMax l2 with
    | none => exact firstMax_cons_none hfm
    | some m =>
      rw [firstMax_cons_some hfm,
        if_neg (not_lt.mpr (hafter m (firstMax_mem hfm)))]
  | cons x xs ih =>
    have hx := hbefore x (by simp)
    have ih2 := ih (fun y hy => hbefore y (by simp [hy]))
    rw [List.cons_append, firstMax_cons_some ih2, if_pos hx]

theorem firstMax_eq_of_unique_max : ∀ (l : List NEvent) (e : NEvent),
    e ∈ l → (∀ x ∈ l, x ≠ e → x.created_at < e.created_at) →
    firstMax l = some e := by
  intro l
  induction l with
  | nil => intro e he; simp at he
  | cons x xs ih =>
    intro e he hmax
    by_cases hxe : x = e
    · subst hxe
      cases hfm : firstMax xs with
      | none => exact firstMax_cons_none hfm
      | some m =>
        rw [firstMax_cons_some hfm]
        by_cases hme : m = x
        · subst hme; rw [if_neg (lt_irrefl _)]
        · have := hmax m (List.mem_cons_of_mem _ (firstMax_mem hfm)) hme
          rw [if_neg (not_lt.mpr (le_of_lt this))]
    · have he' : e ∈ xs := by
        rcases List.mem_cons.mp he with h | h
        · exact absurd h.symm hxe
        · exact h
      have ihe := ih e he' (fun y hy hne => hmax y (List.mem_cons_of_mem _ hy) hne)
      rw [firstMax_cons_some ihe, if_pos (hmax x (by simp) hxe)]

theorem firstMax_eq_of_perm {l l' : List NEvent} (h : l.Perm l')
    (hd : l.Pairwise fun a b => a.created_at ≠ b.created_at) :
    firstMax l = firstMax l' := by
  cases hfm : firstMax l with
  | none =>
    have hl : l = [] := firstMax_eq_none.mp hfm
    subst hl
    have hl' : l' = [] := h.symm.eq_nil
    subst hl'
    rfl
  | some m =>
    cases hfm' : firstMax l' with
    | none =>
      have hl' : l' = [] := firstMax_eq_none.mp hfm'
      subst hl'
      have hl : l = [] := h.eq_nil
      rw [hl] at hfm
      simp [firstMax] at hfm
    | some m' =>
      have hm := firstMax_mem hfm
      have hm' := firstMax_mem hfm'
      have hm'l : m' ∈ l := h.mem_iff.mpr hm'
      have hml' : m ∈ l' := h.mem_iff.mp hm
      have e1 : m.created_at ≤ m'.created_at := firstMax_le hfm' m hml'
      have e2 : m'.created_at ≤ m.created_at := firstMax_le hfm m' hm'l
      by_cases heq : m = m'
      · rw [heq]
      · exfalso
        have hsym : Symmetric (fun a b : NEvent => a.created_at ≠ b.created_at) :=
          fun a b hab => hab.symm
        have := List.Pairwise.forall hsym hd hm hm'l heq
        omega

theorem find?_eq_of_perm_unique {p : NEvent → Bool} {l l' : List NEvent}
    (h : l.Perm l')
    (huniq : ∀ a ∈ l, ∀ b ∈ l, p a → p b → a = b) :
    l.find? p = l'.find? p := by
  cases hfind : l.find? p with
  | none =>
    have hall := List.find?_eq_none.mp hfind
    exact (List.find?_eq_none.mpr (fun x hx => hall x (h.mem_iff.mpr hx))).symm
  | some a =>
    have ha : p a := List.find?_some hfind
    have hmem : a ∈ l := List.mem_of_find?_eq_some hfind
    cases hfind' : l'.find? p with
    | none =>
      have hall := List.find?_eq_none.mp hfind'
      exact absurd ha (hall a (h.mem_iff.mp hmem))
    | some b =>
      have hb : p b := List.find?_some hfind'
      have hbmem : b ∈ l := h.mem_iff.mpr (List.mem_of_find?_eq_some hfind')
      rw [huniq b hbmem a hmem hb ha]

theorem projectGame_def (gameId : String) (events : List NEvent) :
    projectGame gameId events =
      match (sortByCreatedDesc
          (events.filter (fun e => e.kind == CHESS_GAME_KIND))).head? with
      | some e => parseGameEvent e
      | none =>
        match events.find? isAcceptedChallenge with
        | some ch => decodeAcceptedChallenge gameId ch
        | none => none := rfl

/-! ## Decoded history length

The rules engine is the spec's opaque notation decoder; what the
program observes of a decoded snapshot is its history
(`chess.history()` after `loadPgn`).  `decodedMoveCount` models the
length of that history: the movetext tokens that are neither move
numbers nor a result marker, with the bare `"*"` content (what the
program writes for a fresh game, and resets the board on) decoding to
the empty history. -/

/-- Split a character list into lines at newlines. -/
def splitLines : List Char → List (List Char)
  | [] => [[]]
  | c :: rest =>
    let r := splitLines rest
    if c = '\n' then [] :: r
    else
      match r with
      | [] => [[c]]
      | l :: ls => (c :: l) :: ls

/-- Whitespace-separated tokens of a character list. -/
def wsTokensAux : List Char → List Char → List (List Char)
  | [], acc => if acc.isEmpty then [] else [acc.reverse]
  | c :: rest, acc =>
    if isSpaceChar c then
      if acc.isEmpty then wsTokensAux rest []
      else acc.reverse :: wsTokensAux rest []
    else wsTokensAux rest (c :: acc)

/-- The movetext tokens of a notation text: the whitespace-separated
tokens of the non-header lines that are neither move numbers (ending in
a period) nor a result marker. -/
def movetextTokens (cs : List Char) : List (List Char) :=
  let moveLines := (splitLines cs).filter (fun l => !(l.head? == some '['))
  let tokens := moveLines.flatMap (fun l => wsTokensAux l [])
  tokens.filter (fun t =>
    !t.isEmpty && !(t.getLast? == some '.') && !(t == ['*']) &&
      !(t == ['1', '-', '0']) && !(t == ['0', '-', '1']) &&
      !(t == ['1', '/', '2', '-', '1', '/', '2']))

def decodedMoveCount (pgn : String) : Nat :=
  if pgn = "*" ∨ pgn.data.all isSpaceChar then 0
  else (movetextTokens pgn.data).length

/-! ## Concrete events for the projector claims -/

/-- A two-move snapshot for game `game1`, broadcast at time 100. -/
def pgnTwoMoves : String :=
  "[White \"alice\"]\n[Black \"bob\"]\n[Result \"*\"]\n\n1. e4 e5 *"

def ce1 : NEvent :=
  ⟨"event1", "alice", 64, 100, .text pgnTwoMoves,
    [["d", "game1"], ["white", "alice"], ["black", "bob"]]⟩

/-- A later (time 200) snapshot for the same game whose content decodes
to the empty history. -/
def ce2 : NEvent :=
  ⟨"event2", "bob", 64, 200, .text "*",
    [["d", "game1"], ["white", "alice"], ["black", "bob"]]⟩

/-- Two snapshots for game `game2` with equal timestamps and distinct
ids and contents. -/
def te1 : NEvent :=
  ⟨"a", "p1", 64, 100, .text "*",
    [["d", "game2"], ["white", "alice"], ["black", "bob"]]⟩

def te2 : NEvent :=
  ⟨"b", "p2", 64, 100, .text "*",
    [["d", "game2"], ["white", "carol"], ["black", "dan"]]⟩

/-- Claim C1 (counterexample): the projector does not discard a
newer-timestamped snapshot whose decoded history is shorter than the
previously adopted one.  After adopting the two-move snapshot `ce1`,
the arrival of the empty-history snapshot `ce2` (later timestamp) makes
the projector adopt `ce2`'s state: the adopted move count drops from 2
to 0, there is no corruption check and no fallback to the next-newest
valid snapshot. -/
theorem projector_adopts_shorter_history :
    ce1.created_at < ce2.created_at ∧
    (projectGame "game1" [ce1]).map (fun g => decodedMoveCount g.pgn) = some 2 ∧
    projectGame "game1" [ce1, ce2] = parseGameEvent ce2 ∧
    (projectGame "game1" [ce1, ce2]).map (fun g => decodedMoveCount g.pgn) =
      some 0 := by
  refine ⟨by decide, rfl, rfl, rfl⟩

/-- Claim C1 (amended): the projector adopts the snapshot with the
strictly greatest `created_at` among the kind-64 events, with no
comparison of decoded history lengths — a strictly newest snapshot is
adopted whatever its content, so the adopted move count is not
monotone. -/
theorem projector_newest_wins_regardless_of_history (gameId : String)
    (l : List NEvent) (e : NEvent) (he : e ∈ l)
    (hkind : e.kind = CHESS_GAME_KIND)
    (hnewest : ∀ x ∈ l, x.kind = CHESS_GAME_KIND → x ≠ e →
      x.created_at < e.created_at) :
    projectGame gameId l = parseGameEvent e := by
  rw [projectGame_def, head?_sortByCreatedDesc]
  have hef : e ∈ l.filter (fun x => x.kind == CHESS_GAME_KIND) :=
    List.mem_filter.mpr ⟨he, by simp [hkind]⟩
  have hmax : ∀ x ∈ l.filter (fun x => x.kind == CHESS_GAME_KIND), x ≠ e →
      x.created_at < e.created_at := by
    intro x hx hne
    have hx2 := List.mem_filter.mp hx
    exact hnewest x hx2.1 (by simpa using hx2.2) hne
  rw [firstMax_eq_of_unique_max _ e hef hmax]

/-- Witness for the amended C1 at the concrete pair `ce1`, `ce2`. -/
theorem projector_newest_wins_witness :
    projectGame "game1" [ce1, ce2] = parseGameEvent ce2 :=
  projector_newest_wins_regardless_of_history "game1" [ce1, ce2] ce2
    (by decide) (by decide) (by decide)

/-- Claim C2 (counterexample): with equal `created_at` the projector
does not break the tie by descending event id: `te2`'s id is the
lexicographically greater one, yet the projector adopts `te1`, the
event listed first, and the two decode to different states. -/
theorem projector_ignores_id_tie_break :
    te1.created_at = te2.created_at ∧ te1.id < te2.id ∧
    projectGame "game2" [te1, te2] = parseGameEvent te1 ∧
    parseGameEvent te1 ≠ parseGameEvent te2 := by
  refine ⟨rfl, by rw [String.lt_iff_toList_lt]; decide, rfl, by decide⟩

theorem jsOrVal_some_ne {s d : String} (h : s ≠ "") : jsOrVal (some s) d = s := by
  simp [jsOrVal, h]

theorem jsOrVal_falsy {a : Option String} {d : String}
    (h : optTruthy a = none) : jsOrVal a d = d := by
  cases a with
  | none => rfl
  | some s =>
    by_cases hs : s = ""
    · simp [jsOrVal, hs]
    · simp [optTruthy, hs] at h

theorem parseGameEvent_fields {e : NEvent} {g : ActiveGame}
    (hg : parseGameEvent e = some g) :
    g.white = jsOrVal (tagValue e "white")
      (jsOrVal (jsObjGet (parsePGNHeaders (contentStr e.content)) "white") "") ∧
    g.black = jsOrVal (tagValue e "black")
      (jsOrVal (jsObjGet (parsePGNHeaders (contentStr e.content)) "black") "") ∧
    g.pgn = contentStr e.content ∧
    g.result = jsOrVal (jsObjGet (parsePGNHeaders (contentStr e.content)) "result")
      "*" := by
  cases hd : optTruthy (tagValue e "d") with
  | none => simp [parseGameEvent, hd] at hg
  | some dTag =>
    simp only [parseGameEvent, hd, Option.some.injEq] at hg
    subst hg
    exact ⟨rfl, rfl, rfl, rfl⟩

/-- Claim C2 (amended): the projector selects the event with the
greatest `created_at`; among equal timestamps it keeps the event
earliest in the queried list (the JS sort is stable), not the greatest
id.  The selected snapshot's white and black are read from the
dedicated `white`/`black` tags when those are present (and truthy), and
fall back to the embedded notation headers otherwise. -/
theorem projector_selection_characterization (gameId : String)
    (l l1 l2 : List NEvent) (e : NEvent)
    (hsplit : l.filter (fun x => x.kind == CHESS_GAME_KIND) = l1 ++ e :: l2)
    (hbefore : ∀ x ∈ l1, x.created_at < e.created_at)
    (hafter : ∀ x ∈ l2, x.created_at ≤ e.created_at)
    (g : ActiveGame) (hg : parseGameEvent e = some g) :
    projectGame gameId l = some g ∧
    (∀ w, tagValue e "white" = some w → w ≠ "" → g.white = w) ∧
    (optTruthy (tagValue e "white") = none →
      ∀ hw, jsObjGet (parsePGNHeaders (contentStr e.content)) "white" = some hw →
        hw ≠ "" → g.white = hw) ∧
    (∀ b, tagValue e "black" = some b → b ≠ "" → g.black = b) ∧
    (optTruthy (tagValue e "black") = none →
      ∀ hb, jsObjGet (parsePGNHeaders (contentStr e.content)) "black" = some hb →
        hb ≠ "" → g.black = hb) := by
  obtain ⟨hwhite, hblack, -, -⟩ := parseGameEvent_fields hg
  refine ⟨?_, ?_, ?_, ?_, ?_⟩
  · rw [projectGame_def, head?_sortByCreatedDesc, hsplit,
      firstMax_append_strict l1 l2 e hbefore hafter]
    exact hg
  · intro w hw hne
    rw [hwhite, hw, jsOrVal_some_ne hne]
  · intro htag hw hhw hne
    rw [hwhite, jsOrVal_falsy htag, hhw, jsOrVal_some_ne hne]
  · intro b hb hne
    rw [hblack, hb, jsOrVal_some_ne hne]
  · intro htag hb hhb hne
    rw [hblack, jsOrVal_falsy htag, hhb, jsOrVal_some_ne hne]

/-- Witness for the amended C2 at the concrete tie `te1`, `te2`. -/
theorem projector_selection_witness :
    projectGame "game2" [te1, te2] =
      some ⟨"game2", "a", "alice", "bob", "*", ⟨300, 0⟩, "*", 100, 100⟩ :=
  (projector_selection_characterization "game2" [te1, te2] [] [te2] te1
    (by decide) (by decide) (by decide)
    ⟨"game2", "a", "alice", "bob", "*", ⟨300, 0⟩, "*", 100, 100⟩ rfl).1

/-- Claim C3 (counterexample): the projection is not invariant under
permutation of the arrival order: the two orders of the equal-timestamp
snapshots `te1`, `te2` project to different canonical states. -/
theorem projection_not_permutation_invariant :
    ([te1, te2] : List NEvent).Perm [te2, te1] ∧
    projectGame "game2" [te1, te2] ≠ projectGame "game2" [te2, te1] :=
  ⟨List.Perm.swap te2 te1 [], by decide⟩

/-- Claim C3 (amended): the projection is a pure function of the event
list (running it twice on the same list trivially yields the same
state), and it is invariant under permutations of the arrival order
provided the kind-64 snapshots have pairwise distinct timestamps and at
most one accepted-status challenge event is present — with equal
timestamps (or several accepted challenges) the arrival order leaks
into the result. -/
theorem projection_perm_invariant_distinct_timestamps (gameId : String)
    (l l' : List NEvent) (hperm : l.Perm l')
    (hdist : (l.filter (fun x => x.kind == CHESS_GAME_KIND)).Pairwise
      (fun a b => a.created_at ≠ b.created_at))
    (huniq : ∀ a ∈ l, ∀ b ∈ l, isAcceptedChallenge a → isAcceptedChallenge b →
      a = b) :
    projectGame gameId l = projectGame gameId l' := by
  rw [projectGame_def, projectGame_def, head?_sortByCreatedDesc,
    head?_sortByCreatedDesc]
  have hf := hperm.filter (fun x => x.kind == CHESS_GAME_KIND)
  rw [firstMax_eq_of_perm hf hdist]
  cases hfm : firstMax (l'.filter (fun x => x.kind == CHESS_GAME_KIND)) with
  | some e => rfl
  | none =>
    simp only []
    rw [find?_eq_of_perm_unique hperm huniq]

/-- Witness for the amended C3 at the concrete pair `ce1`, `ce2`
(distinct timestamps, no challenge events). -/
theorem projection_perm_invariant_witness :
    projectGame "game1" [ce1, ce2] = projectGame "game1" [ce2, ce1] :=
  projection_perm_invariant_distinct_timestamps "game1" [ce1, ce2] [ce2, ce1]
    (List.Perm.swap ce2 ce1 []) (by decide) (by decide)

/-! ## Claim C4: the color assignment resolver -/

/-- Claim C4: the color assignment is a pure deterministic function of
(challenger identity, challenged identity, preference) — the result
does not depend on the `p`-tag fallback when the original challenger is
embedded, so any two parties computing it from the same two identities
obtain the same pair.  Preference `w` assigns the challenger white,
`b` assigns the challenger black, and the `random` fallback assigns the
challenger white exactly when the sum of the character codes of the
concatenation of the two identities is odd. -/
theorem color_assignment_resolver (oc acc : String) (pTag : Option String)
    (hoc : oc ≠ "") :
    assignColors (some oc) pTag acc (some "w") = (some oc, some acc) ∧
    assignColors (some oc) pTag acc (some "b") = (some acc, some oc) ∧
    (sumCharCodes (oc ++ acc) % 2 = 1 →
      assignColors (some oc) pTag acc (some "random") = (some oc, some acc)) ∧
    (sumCharCodes (oc ++ acc) % 2 ≠ 1 →
      assignColors (some oc) pTag acc (some "random") = (some acc, some oc)) := by
  have hslot : jsOr (some oc) pTag = some oc := by simp [jsOr, hoc]
  have hhash : jsOrVal (some oc) "" = oc := jsOrVal_some_ne hoc
  refine ⟨?_, ?_, ?_, ?_⟩
  · simp [assignColors, hslot]
  · simp [assignColors, hslot]
  · intro hodd
    simp [assignColors, hslot, hhash, hodd]
  · intro heven
    simp [assignColors, hslot, hhash, heven]

/-- Witness for C4 at the concrete identities alice and bob. -/
theorem color_assignment_resolver_witness :
    assignColors (some "alice") none "bob" (some "w") =
      (some "alice", some "bob") :=
  (color_assignment_resolver "alice" "bob" none (by decide)).1

/-! ## Claim C5: the accepted-challenge fallback of the projector -/

/-- An accepted challenge event for game `game3`: bob accepted alice's
challenge (preference white), broadcasting the original parameters in
his own content. -/
def ch1 : NEvent :=
  ⟨"chev", "bob", 30064, 50,
    .json ⟨some ⟨300, 0⟩, some "w", some "alice"⟩,
    [["d", "game3"], ["p", "alice"], ["e", "orig", "", "reply"],
      ["status", "accepted"]]⟩

/-- Claim C5: for an event set with no move-snapshot event, the
Projector decodes the first challenge event carrying an `accepted`
status tag: it recovers the time control from the decoded content
(defaulting to 300+0), recomputes the color assignment (the section 4.1
resolver) from the embedded original-challenger identity and the
acceptor's pubkey, and produces a state with empty move history
(`"*"`, which decodes to zero moves) and in-progress result; with no
accepted challenge either, it reports not-found (`none`). -/
theorem projector_challenge_fallback (gameId : String) (l : List NEvent)
    (hnogame : l.filter (fun e => e.kind == CHESS_GAME_KIND) = []) :
    (∀ ch c, l.find? isAcceptedChallenge = some ch →
      parseContent ch.content = some c →
      projectGame gameId l = some {
        id := gameId
        eventId := ch.id
        white := jsOrVal (assignColors c.originalChallenger (tagValue ch "p")
          ch.pubkey c.challengerColor).1 ""
        black := jsOrVal (assignColors c.originalChallenger (tagValue ch "p")
          ch.pubkey c.challengerColor).2 ""
        pgn := "*"
        timeControl := c.timeControl.getD ⟨300, 0⟩
        result := "*"
        createdAt := ch.created_at
        updatedAt := ch.created_at } ∧
      decodedMoveCount "*" = 0) ∧
    (l.find? isAcceptedChallenge = none → projectGame gameId l = none) := by
  constructor
  · intro ch c hfind hc
    rw [projectGame_def, hnogame]
    simp only [sortByCreatedDesc, List.foldr, List.head?]
    rw [hfind]
    refine ⟨?_, rfl⟩
    simp only [decodeAcceptedChallenge, hc]
    cases c.timeControl <;> rfl
  · intro hfind
    rw [projectGame_def, hnogame]
    simp only [sortByCreatedDesc, List.foldr, List.head?]
    rw [hfind]

/-- Witness for C5 at the concrete accepted challenge `ch1` and the
empty event set. -/
theorem projector_challenge_fallback_witness :
    projectGame "game3" [ch1] =
      some ⟨"game3", "chev", "alice", "bob", "*", ⟨300, 0⟩, "*", 50, 50⟩ ∧
    projectGame "game3" [] = none := by
  constructor
  · exact ((projector_challenge_fallback "game3" [ch1] rfl).1 ch1
      ⟨some ⟨300, 0⟩, some "w", some "alice"⟩ rfl rfl).1
  · exact (projector_challenge_fallback "game3" [] rfl).2 rfl

/-! ## Claim C6: result transitions

Two snapshot-adoption paths exist: the Game page's PGN-load effect
(src/pages/Game.tsx, lines 90-130) and `useChessGame.loadPgn`
(src/hooks/useChessGame.ts, lines 137-160).  The rules engine's
terminal checks on the loaded position are passed in as a
`TerminalVerdict`. -/

/-- What the rules engine reports for the loaded position:
checkmate/draw/stalemate flags and the side to move. -/
structure TerminalVerdict where
  isCheckmate : Bool
  isDraw : Bool
  isStalemate : Bool
  turn : String
deriving DecidableEq, Repr

/-- The `isCheckmate / isDraw / isStalemate` else-chain producing a
result (Game.tsx lines 116-121; the final else is `'*'`). -/
def engineResult (v : TerminalVerdict) : String :=
  if v.isCheckmate then (if v.turn = "w" then "0-1" else "1-0")
  else if v.isDraw || v.isStalemate then "1/2-1/2"
  else "*"

/-- The result-relevant state of the Game page: the last loaded
notation text and the displayed result. -/
structure PageState where
  lastLoadedPgn : String
  result : String
deriving DecidableEq, Repr

/-- The PGN-load effect of the Game page (src/pages/Game.tsx, lines
90-130), restricted to the fields the claim mentions.  A falsy or
unchanged text is a no-op; a `'*'`/blank text resets the board and sets
the result to `'*'`; otherwise a successful load recomputes the result
from the headers, else the engine verdict, else `'*'`; a failed load
(`parseOk = false`) leaves the state unchanged (the ref is updated only
after a successful load). -/
def gameLoadEffect (st : PageState) (newPgn : String) (parseOk : Bool)
    (v : TerminalVerdict) : PageState :=
  if newPgn = "" then st
  else if newPgn = st.lastLoadedPgn then st
  else if newPgn = "*" ∨ newPgn.data.all isSpaceChar then
    { lastLoadedPgn := newPgn, result := "*" }
  else if parseOk then
    { lastLoadedPgn := newPgn
      result :=
        match optTruthy (jsObjGet (parsePGNHeaders newPgn) "result") with
        | some r =>
          if r = "1-0" ∨ r = "0-1" ∨ r = "1/2-1/2" then r else engineResult v
        | none => engineResult v }
  else st

/-- A finished snapshot: its Result header is `1-0`. -/
def pgnWon : String := "[Result \"1-0\"]\n\n1. e4 e5 1-0"

/-- Claim C6 (counterexample): the observed result does transition back
from a terminal value to in-progress.  The Game page adopts the
finished snapshot `pgnWon` (result `1-0`); a later-adopted `'*'`
snapshot (the projector adopts strictly newer snapshots whatever their
content) resets the observed result to `'*'`. -/
theorem result_regresses_to_in_progress :
    (gameLoadEffect ⟨"", "*"⟩ pgnWon true ⟨false, false, false, "w"⟩).result =
      "1-0" ∧
    (gameLoadEffect
        (gameLoadEffect ⟨"", "*"⟩ pgnWon true ⟨false, false, false, "w"⟩)
        "*" true ⟨false, false, false, "w"⟩).result = "*" := by
  constructor <;> decide

/-- The result-relevant state of the `useChessGame` hook: the displayed
result and the `gameEndedRef` flag. -/
structure HookGameState where
  result : String
  gameEnded : Bool
deriving DecidableEq, Repr

/-- `checkGameEnd` (src/hooks/useChessGame.ts, lines 65-83): a no-op
once the game-ended flag is set, and otherwise only ever adopts a
terminal engine verdict. -/
def checkGameEnd (st : HookGameState) (v : TerminalVerdict) : HookGameState :=
  if st.gameEnded then st
  else
    let r := engineResult v
    if r ≠ "*" then { result := r, gameEnded := true } else st

/-- `loadPgn` (src/hooks/useChessGame.ts, lines 137-160): on a
successful load, adopt a truthy non-`'*'` Result header (setting the
game-ended flag), then run `checkGameEnd`; a failed load leaves the
state unchanged. -/
def hookLoadPgn (st : HookGameState) (pgn : String) (parseOk : Bool)
    (v : TerminalVerdict) : HookGameState :=
  if parseOk then
    let st1 :=
      match optTruthy (jsObjGet (parsePGNHeaders pgn) "result") with
      | some r => if r ≠ "*" then { result := r, gameEnded := true } else st
      | none => st
    checkGameEnd st1 v
  else st

theorem checkGameEnd_preserves_terminal (st : HookGameState)
    (v : TerminalVerdict) (h : st.result ≠ "*") :
    (checkGameEnd st v).result ≠ "*" := by
  unfold checkGameEnd
  split
  · exact h
  · simp only []
    split
    · next her => simpa using her
    · exact h

/-- Claim C6 (amended): within `useChessGame.loadPgn` an adopted
terminal result never reverts to in-progress; the Game page's PGN-load
effect, by contrast, recomputes the result from each newly adopted
snapshot and reverts to `'*'` when the newer snapshot carries no
terminal marker (see the counterexample). -/
theorem hook_result_never_regresses (st : HookGameState) (pgn : String)
    (ok : Bool) (v : TerminalVerdict) (hterm : st.result ≠ "*") :
    (hookLoadPgn st pgn ok v).result ≠ "*" := by
  cases ok with
  | false => simpa [hookLoadPgn] using hterm
  | true =>
    simp only [hookLoadPgn, if_true]
    cases hr : optTruthy (jsObjGet (parsePGNHeaders pgn) "result") with
    | none => exact checkGameEnd_preserves_terminal st v hterm
    | some r =>
      by_cases hrr : r = "*"
      · subst hrr
        simp only [ne_eq, not_true_eq_false, if_false]
        exact checkGameEnd_preserves_terminal st v hterm
      · simp only [ne_eq, hrr, not_false_eq_true, if_true]
        exact checkGameEnd_preserves_terminal ⟨r, true⟩ v hrr

/-- Witness for the amended C6: a finished hook state survives loading
a `'*'`-headed snapshot. -/
theorem hook_result_never_regresses_witness :
    (hookLoadPgn ⟨"1-0", true⟩ "*" true ⟨false, false, false, "w"⟩).result ≠
      "*" :=
  hook_result_never_regresses ⟨"1-0", true⟩ "*" true
    ⟨false, false, false, "w"⟩ (by decide)

/-! ## Claim C7: challenge accept/decline authorization
(src/hooks/useChessChallenge.ts) -/

/-- `formatTimeControl` (src/lib/chess.ts, lines 121-128), used in the
`alt` tags. -/
def formatTimeControl (tc : TimeControl) : String :=
  if tc.initial = 0 then "Unlimited"
  else if tc.increment > 0 then
    toDecimal (tc.initial / 60) ++ "+" ++ toDecimal tc.increment
  else toDecimal (tc.initial / 60) ++ " min"

/-- A parsed challenge (`Challenge` in src/hooks/useChessChallenge.ts). -/
structure Challenge where
  id : String
  eventId : String
  challenger : String
  challenged : String
  timeControl : TimeControl
  challengerColor : String
  createdAt : Int
  status : String
deriving DecidableEq, Repr

/-- The accepted-status event the challenged party signs (the fields of
the `signEvent` call in `useAcceptChallenge`). -/
def acceptedEvent (pk : String) (ch : Challenge) (now : Int)
    (newId : String) : NEvent where
  id := newId
  pubkey := pk
  kind := CHESS_CHALLENGE_KIND
  created_at := now
  content := .json ⟨some ch.timeControl, some ch.challengerColor,
    some ch.challenger⟩
  tags := [["d", ch.id], ["p", ch.challenger],
    ["e", ch.eventId, "", "reply"], ["status", "accepted"],
    ["alt", "Chess challenge accepted: " ++ formatTimeControl ch.timeControl]]

/-- The declined-status event the challenged party signs (the fields of
the `signEvent` call in `useDeclineChallenge`). -/
def declinedEvent (pk : String) (ch : Challenge) (now : Int)
    (newId : String) : NEvent where
  id := newId
  pubkey := pk
  kind := CHESS_CHALLENGE_KIND
  created_at := now
  content := .json ⟨some ch.timeControl, some ch.challengerColor, none⟩
  tags := [["d", ch.id ++ "-declined"], ["p", ch.challenger],
    ["e", ch.eventId, "", "reply"], ["status", "declined"],
    ["alt", "Chess challenge declined"]]

/-- `useAcceptChallenge`'s mutation (src/hooks/useChessChallenge.ts,
lines 98-126): a missing login or a caller other than the challenged
player throws before anything is signed (the `Except.error` return:
no event value exists, nothing is broadcast, state unchanged);
otherwise the accepted-status event is signed (`newId` is the id the
signer assigns, `now` the timestamp) and broadcast. -/
def acceptChallenge (user : Option String) (ch : Challenge) (now : Int)
    (newId : String) : Except String NEvent :=
  match user with
  | none => Except.error "Not logged in"
  | some pk =>
    if pk ≠ ch.challenged then Except.error "You are not the challenged player"
    else Except.ok (acceptedEvent pk ch now newId)

/-- `useDeclineChallenge`'s mutation (src/hooks/useChessChallenge.ts,
lines 140-165): same guards; the declined event goes out under the
derived identifier `id ++ "-declined"` and omits the original
challenger from its content. -/
def declineChallenge (user : Option String) (ch : Challenge) (now : Int)
    (newId : String) : Except String NEvent :=
  match user with
  | none => Except.error "Not logged in"
  | some pk =>
    if pk ≠ ch.challenged then Except.error "You are not the challenged player"
    else Except.ok (declinedEvent pk ch now newId)

/-- Claim C7: accepting or declining fails with the authorization error
whenever the caller differs from the challenged identity, and in that
case no event is produced (the error return happens before the signing
step, so nothing is broadcast and no state changes); only when the
caller is the challenged party is an event produced, and that event is
authored by the challenged party and carries the accepted/declined
status tag. -/
theorem challenge_authorization (user : Option String) (ch : Challenge)
    (now : Int) (nid : String) :
    (∀ pk, user = some pk → pk ≠ ch.challenged →
      acceptChallenge user ch now nid =
        Except.error "You are not the challenged player" ∧
      declineChallenge user ch now nid =
        Except.error "You are not the challenged player") ∧
    (user = some ch.challenged →
      ∃ e, acceptChallenge user ch now nid = Except.ok e ∧
        e.pubkey = ch.challenged ∧
        e.tags.any (fun t => t.head? == some "status" &&
          t.get? 1 == some "accepted") = true ∧
      ∃ e2, declineChallenge user ch now nid = Except.ok e2 ∧
        e2.pubkey = ch.challenged ∧
        e2.tags.any (fun t => t.head? == some "status" &&
          t.get? 1 == some "declined") = true) := by
  constructor
  · intro pk hu hne
    subst hu
    constructor
    · simp [acceptChallenge, hne]
    · simp [declineChallenge, hne]
  · intro hu
    subst hu
    have hcond : ¬(ch.challenged ≠ ch.challenged) := fun h => h rfl
    refine ⟨acceptedEvent ch.challenged ch now nid, ?_, rfl, rfl,
      declinedEvent ch.challenged ch now nid, ?_, rfl, rfl⟩
    · simp only [acceptChallenge]
      rw [if_neg hcond]
    · simp only [declineChallenge]
      rw [if_neg hcond]

/-- A concrete pending challenge from alice to bob. -/
def chal1 : Challenge :=
  ⟨"game9", "orig9", "alice", "bob", ⟨300, 0⟩, "random", 10, "pending"⟩

/-- Witness for C7: carol cannot accept bob's challenge; bob can. -/
theorem challenge_authorization_witness :
    acceptChallenge (some "carol") chal1 11 "nid" =
      Except.error "You are not the challenged player" ∧
    ∃ e, acceptChallenge (some "bob") chal1 11 "nid" = Except.ok e ∧
      e.pubkey = "bob" := by
  refine ⟨((challenge_authorization (some "carol") chal1 11 "nid").1 "carol"
    rfl (by decide)).1, ?_⟩
  obtain ⟨e, he, hpk, -, -⟩ :=
    (challenge_authorization (some "bob") chal1 11 "nid").2 rfl
  exact ⟨e, he, hpk⟩

/-! ## Claim C8: the move submission pipeline keeps local state on
broadcast failure (src/pages/Game.tsx, `handleMove`) -/

/-- What the rules engine reports for a successfully applied move: the
move in algebraic form, the terminal flags and side to move afterwards,
and the movetext `chess.pgn()` renders. -/
structure MoveOracle where
  san : String
  isCheckmate : Bool
  isDraw : Bool
  isStalemate : Bool
  turnAfter : String
  movesText : String
deriving DecidableEq, Repr

/-- `getResultText` (src/lib/chess.ts, lines 155-163). -/
def getResultText (result : String) : String :=
  if result = "1-0" then "White wins"
  else if result = "0-1" then "Black wins"
  else if result = "1/2-1/2" then "Draw"
  else if result = "*" then "In progress"
  else "Unknown"

/-- JS `charAt(0).toUpperCase() + slice(1)`. -/
def capitalize (s : String) : String :=
  match s.data with
  | [] => ""
  | c :: rest => String.mk (c.toUpper :: rest)

/-- `generatePGN` (src/lib/chess.ts, lines 79-102): the Seven Tag
Roster lines (missing values default to `?`, `*` for Result), then the
remaining truthy headers with capitalized keys, then a blank line and
the movetext the rules engine rendered. -/
def generatePGN (movesText : String) (headers : List (String × String)) :
    String :=
  let standardTags := ["Event", "Site", "Date", "Round", "White", "Black",
    "Result"]
  let headerLines1 := standardTags.map (fun tag =>
    let value := jsOrVal (jsObjGet headers (lowerStr tag))
      (if tag = "Result" then "*" else "?")
    "[" ++ tag ++ " \"" ++ value ++ "\"]")
  let headerLines2 := (headers.filter (fun p =>
    !((standardTags.map lowerStr).contains p.1) && !(p.2 == ""))).map
    (fun p => "[" ++ capitalize p.1 ++ " \"" ++ p.2 ++ "\"]")
  String.intercalate "\n" (headerLines1 ++ headerLines2) ++ "\n\n" ++ movesText

/-- The local state `handleMove` mutates: the rules-engine instance's
move list, the last-move highlight, the displayed result, and the
`lastLoadedPgnRef` cache of the notation text. -/
structure GameLocal where
  historySans : List String
  lastMove : Option (String × String)
  result : String
  lastLoadedPgn : String
deriving DecidableEq, Repr

/-- A toast surfaced to the user. -/
structure Toast where
  title : String
  description : String
  destructive : Bool
deriving DecidableEq, Repr

/-- `handleMove`'s outcome: the returned boolean, the local state after
the call, and the toasts surfaced by the publish callbacks. -/
structure HandleMoveResult where
  accepted : Bool
  state : GameLocal
  toasts : List Toast
deriving DecidableEq, Repr

/-- The terminal-detection chain of `handleMove` (Game.tsx lines
199-204). -/
def moveResultOf (m : MoveOracle) : String :=
  if m.isCheckmate then (if m.turnAfter = "w" then "0-1" else "1-0")
  else if m.isDraw || m.isStalemate then "1/2-1/2"
  else "*"

/-- The header object `handleMove` passes to `generatePGN` (Game.tsx
lines 210-219). -/
def moveHeaders (white black : String) (tc : TimeControl) (date : String)
    (result : String) : List (String × String) :=
  [("event", "Nostr Chess Game"), ("site", "nostr"), ("date", date),
    ("round", "?"), ("white", white), ("black", black), ("result", result),
    ("timeControl", formatTimeControlHeader tc)]

/-- `handleMove` (src/pages/Game.tsx, lines 189-254).  The guards and
the legality oracle's verdict are inputs; `broadcastOk` is the outcome
of the asynchronous publish.  All local updates (chess.move already
applied, lastMove, result on terminal, the pgn cache) happen before the
publish call; the `onError` callback only surfaces a destructive toast
(the recoverable "Failed to publish move" error with the error message
as description) and rolls nothing back. -/
def handleMove (isMyTurn isPublishing : Bool) (st : GameLocal)
    (fromSq toSq : String) (oracle : Option MoveOracle)
    (white black : String) (tc : TimeControl) (date : String)
    (broadcastOk : Bool) (errMsg : String) : HandleMoveResult :=
  if !isMyTurn || isPublishing || !(st.result == "*") then ⟨false, st, []⟩
  else
    match oracle with
    | none => ⟨false, st, []⟩
    | some m =>
      let newResult := moveResultOf m
      let pgn := generatePGN m.movesText
        (moveHeaders white black tc date newResult)
      let st2 : GameLocal := {
        historySans := st.historySans ++ [m.san]
        lastMove := some (fromSq, toSq)
        result := if newResult ≠ "*" then newResult else st.result
        lastLoadedPgn := pgn }
      let toasts :=
        if broadcastOk then
          if newResult ≠ "*" then
            [⟨"Game Over", getResultText newResult, false⟩]
          else []
        else [⟨"Failed to publish move", errMsg, true⟩]
      ⟨true, st2, toasts⟩

/-- Claim C8: when the broadcast of the new snapshot fails, the local
optimistic state is not rolled back — the move stays applied to the
history, the last move stays recorded, the cached notation text stays
advanced to the newly generated pgn, the resulting local state is
identical to the successful-broadcast state, and a destructive
(recoverable) error toast is surfaced to the caller. -/
theorem move_pipeline_no_rollback (st : GameLocal) (fromSq toSq : String)
    (m : MoveOracle) (white black : String) (tc : TimeControl) (date : String)
    (errMsg : String) (hactive : st.result = "*") :
    (handleMove true false st fromSq toSq (some m) white black tc date false
      errMsg).accepted = true ∧
    (handleMove true false st fromSq toSq (some m) white black tc date false
      errMsg).state.historySans = st.historySans ++ [m.san] ∧
    (handleMove true false st fromSq toSq (some m) white black tc date false
      errMsg).state.lastMove = some (fromSq, toSq) ∧
    (handleMove true false st fromSq toSq (some m) white black tc date false
      errMsg).state.lastLoadedPgn =
      generatePGN m.movesText (moveHeaders white black tc date
        (moveResultOf m)) ∧
    (handleMove true false st fromSq toSq (some m) white black tc date false
      errMsg).state =
      (handleMove true false st fromSq toSq (some m) white black tc date true
        errMsg).state ∧
    (handleMove true false st fromSq toSq (some m) white black tc date false
      errMsg).toasts = [⟨"Failed to publish move", errMsg, true⟩] := by
  have hguard : (!true || false || !(st.result == "*")) = false := by
    simp [hactive]
  refine ⟨?_, ?_, ?_, ?_, ?_, ?_⟩ <;>
    simp only [handleMove, hguard, Bool.false_eq_true, if_false]

/-- Witness for C8 at a concrete first move e2-e4. -/
theorem move_pipeline_no_rollback_witness :
    (handleMove true false ⟨[], none, "*", ""⟩ "e2" "e4"
        (some ⟨"e4", false, false, false, "b", "1. e4 *"⟩) "w1" "b1"
        ⟨300, 0⟩ "2026.01.01" false "timed out").state.historySans =
      ["e4"] := by
  have h := move_pipeline_no_rollback ⟨[], none, "*", ""⟩ "e2" "e4"
    ⟨"e4", false, false, false, "b", "1. e4 *"⟩ "w1" "b1" ⟨300, 0⟩
    "2026.01.01" "timed out" rfl
  simpa using h.2.1

/-! ## Claim C9: the clock's edge-triggered timeout
(src/components/chess/ChessClock.tsx, `tick`, lines 49-75) -/

/-- JS `Math.max`, kept computable over `ℚ`. -/
def jsMax (a b : ℚ) : ℚ := if a ≤ b then b else a

/-- One animation tick of the clock: a no-op unless the game is started,
not over and timed; otherwise the active side's time decreases by the
wall-clock delta, floored at zero, and the timeout callback fires (the
returned side) exactly when the new time is zero and the previous time
was positive. -/
def clockTick (gameStarted gameOver : Bool) (initial : Nat) (turn : String)
    (whiteTime blackTime delta : ℚ) : ℚ × ℚ × Option String :=
  if !gameStarted || gameOver || initial == 0 then (whiteTime, blackTime, none)
  else if turn = "w" then
    let newTime := jsMax 0 (whiteTime - delta)
    (newTime, blackTime,
      if newTime = 0 ∧ whiteTime > 0 then some "w" else none)
  else
    let newTime := jsMax 0 (blackTime - delta)
    (whiteTime, newTime,
      if newTime = 0 ∧ blackTime > 0 then some "b" else none)

/-- A run of consecutive ticks while white is to move: final white time
and the number of times the timeout callback fired for white. -/
def runWhiteClock (gameStarted gameOver : Bool) (initial : Nat) (t : ℚ) :
    List ℚ → ℚ × Nat
  | [] => (t, 0)
  | d :: ds =>
    let step := clockTick gameStarted gameOver initial "w" t 0 d
    let rest := runWhiteClock gameStarted gameOver initial step.1 ds
    (rest.1, (if step.2.2 = some "w" then 1 else 0) + rest.2)

theorem clockTick_white (initial : Nat) (hinit : initial ≠ 0)
    (w b d : ℚ) :
    clockTick true false initial "w" w b d =
      (jsMax 0 (w - d), b,
        if jsMax 0 (w - d) = 0 ∧ w > 0 then some "w" else none) := by
  simp [clockTick, hinit]

theorem jsMax_zero_eq_zero {x : ℚ} (h : x ≤ 0) : jsMax 0 x = 0 := by
  simp only [jsMax]
  split
  · next hle => linarith
  · rfl

theorem jsMax_zero_iff {x : ℚ} : jsMax 0 x = 0 ↔ x ≤ 0 := by
  constructor
  · intro h
    by_contra hx
    push_neg at hx
    simp only [jsMax, if_pos (le_of_lt hx)] at h
    linarith
  · exact jsMax_zero_eq_zero

theorem jsMax_zero_nonneg (x : ℚ) : 0 ≤ jsMax 0 x := by
  simp only [jsMax]
  split
  · next h => exact h
  · exact le_refl 0

/-- At zero time, a tick with a non-negative delta keeps the time at
zero and does not fire. -/
theorem clockTick_at_zero (initial : Nat) (hinit : initial ≠ 0) (b d : ℚ)
    (hd : 0 ≤ d) :
    clockTick true false initial "w" 0 b d = (0, b, none) := by
  rw [clockTick_white initial hinit]
  have hz : jsMax 0 (0 - d) = 0 := jsMax_zero_eq_zero (by linarith)
  rw [hz, if_neg (by simp)]

theorem runWhiteClock_zero (initial : Nat) (hinit : initial ≠ 0)
    (ds : List ℚ) (hds : ∀ d ∈ ds, 0 ≤ d) :
    runWhiteClock true false initial 0 ds = (0, 0) := by
  induction ds with
  | nil => rfl
  | cons d ds ih =>
    have hd := hds d (by simp)
    have ih2 := ih (fun x hx => hds x (by simp [hx]))
    simp only [runWhiteClock, clockTick_at_zero initial hinit 0 d hd, ih2]
    simp

theorem runWhiteClock_count_le_one (initial : Nat) (hinit : initial ≠ 0) :
    ∀ (ds : List ℚ) (t : ℚ), 0 ≤ t → (∀ d ∈ ds, 0 ≤ d) →
    (runWhiteClock true false initial t ds).2 ≤ 1 := by
  intro ds
  induction ds with
  | nil => intro t ht hd; simp [runWhiteClock]
  | cons d ds ih =>
    intro t ht hall
    have hd := hall d (by simp)
    have hrest : ∀ x ∈ ds, 0 ≤ x := fun x hx => hall x (by simp [hx])
    simp only [runWhiteClock, clockTick_white initial hinit]
    by_cases hfire : jsMax 0 (t - d) = 0 ∧ t > 0
    · rw [if_pos hfire, hfire.1, runWhiteClock_zero initial hinit ds hrest]
      simp
    · rw [if_neg hfire]
      have hih := ih (jsMax 0 (t - d)) (jsMax_zero_nonneg _) hrest
      simpa using hih

theorem runWhiteClock_count_eq_one (initial : Nat) (hinit : initial ≠ 0) :
    ∀ (ds : List ℚ) (t : ℚ), 0 < t → (∀ d ∈ ds, 0 ≤ d) →
    (runWhiteClock true false initial t ds).1 = 0 →
    (runWhiteClock true false initial t ds).2 = 1 := by
  intro ds
  induction ds with
  | nil =>
    intro t ht hd hfin
    simp only [runWhiteClock] at hfin
    linarith
  | cons d ds ih =>
    intro t ht hall hfin
    have hrest : ∀ x ∈ ds, 0 ≤ x := fun x hx => hall x (by simp [hx])
    simp only [runWhiteClock, clockTick_white initial hinit] at hfin ⊢
    by_cases hfire : jsMax 0 (t - d) = 0 ∧ t > 0
    · rw [if_pos hfire, hfire.1, runWhiteClock_zero initial hinit ds hrest]
      simp
    · rw [if_neg hfire]
      have hpos : 0 < jsMax 0 (t - d) := by
        rcases lt_or_eq_of_le (jsMax_zero_nonneg (t - d)) with h | h
        · exact h
        · exact absurd ⟨h.symm, ht⟩ hfire
      have := ih (jsMax 0 (t - d)) hpos hrest hfin
      simpa using this

/-- Claim C9: for a started, non-over game with a timed control, the
white-side timeout fires exactly once over any run of non-negative
wall-clock deltas — (a) the fire count of a run is at most one, and
equals one whenever the clock started positive and reached zero, (b) a
single tick fires exactly when the previous time was positive and the
delta drives it to (or past) zero, the 0-crossing, and (c) once the
time is zero, further ticks keep it at zero and never fire again.  (The
black side is the symmetric branch of the same `tick`.) -/
theorem clock_timeout_edge_triggered (initial : Nat) (hinit : initial ≠ 0)
    (t0 : ℚ) (ht0 : 0 ≤ t0) (ds : List ℚ) (hds : ∀ d ∈ ds, 0 ≤ d) :
    (runWhiteClock true false initial t0 ds).2 ≤ 1 ∧
    (0 < t0 → (runWhiteClock true false initial t0 ds).1 = 0 →
      (runWhiteClock true false initial t0 ds).2 = 1) ∧
    (∀ prev b d : ℚ,
      ((clockTick true false initial "w" prev b d).2.2 = some "w" ↔
        (prev > 0 ∧ prev - d ≤ 0))) ∧
    (∀ b d : ℚ, 0 ≤ d →
      clockTick true false initial "w" 0 b d = (0, b, none)) := by
  refine ⟨runWhiteClock_count_le_one initial hinit ds t0 ht0 hds,
    fun hpos hfin => runWhiteClock_count_eq_one initial hinit ds t0 hpos hds hfin,
    ?_, fun b d hd => clockTick_at_zero initial hinit b d hd⟩
  intro prev b d
  rw [clockTick_white initial hinit]
  by_cases h : jsMax 0 (prev - d) = 0 ∧ prev > 0
  · rw [if_pos h]
    exact ⟨fun _ => ⟨h.2, jsMax_zero_iff.mp h.1⟩, fun _ => rfl⟩
  · rw [if_neg h]
    constructor
    · intro hcontra
      simp at hcontra
    · intro hcontra
      exact absurd ⟨jsMax_zero_iff.mpr hcontra.2, hcontra.1⟩ h

/-- Witness for C9: a 300-second clock at one second remaining, ticked
by deltas 2 and 5, fires at most once. -/
theorem clock_timeout_edge_triggered_witness :
    (runWhiteClock true false 300 1 [2, 5]).2 ≤ 1 :=
  (clock_timeout_edge_triggered 300 (by decide) 1 (by decide) [2, 5]
    (by decide)).1
